import Mathlib

/-!
Verification of the hyperdrive tape-recovery pipeline
(src/recovery/tap_to_basic.py, src/recovery/tap_find_basic_prg.py and
friends).  Byte buffers are modelled as `List Nat`, Python ints as `Nat`
or `Int` as the source demands, Python floats as exact rationals, and
fallible functions (ones that `raise`) as `Option`-valued functions.
-/

namespace Hyperdrive

set_option maxRecDepth 40000

/-! ## PulseReader (tap_to_basic.py lines 9-28) -/

/-- The 12-byte TAP signature, `TAP_SIG = b"C64-TAPE-RAW"`. -/
def TAP_SIG : List Nat := [0x43, 0x36, 0x34, 0x2D, 0x54, 0x41, 0x50, 0x45, 0x2D, 0x52, 0x41, 0x57]

/-- The pulse-decoding `while` loop of `read_tap_v1_pulses`, expressed on the
suffix of the stream starting at the loop index: a non-zero byte is one pulse;
a zero byte reads a 3-byte little-endian extended value (`if i + 3 >= len(stream): break`
becomes the wildcard case below, since fewer than 3 bytes follow the zero). -/
def tap_pulse_walk : List Nat → List Nat
  | [] => []
  | x :: rest =>
    if x = 0 then
      match rest with
      | a :: b :: c :: rest2 => (a ||| (b <<< 8) ||| (c <<< 16)) :: tap_pulse_walk rest2
      | _ => []
    else
      x :: tap_pulse_walk rest

/-- The declared data length, `struct.unpack("<I", b[16:20])[0]`. -/
def tapDataLen (b : List Nat) : Nat :=
  b.getD 16 0 ||| (b.getD 17 0 <<< 8) ||| (b.getD 18 0 <<< 16) ||| (b.getD 19 0 <<< 24)

/-- `read_tap_v1_pulses`: header validation then the pulse stream walk.
`none` models a raised `ValueError`. -/
def read_tap_v1_pulses (b : List Nat) : Option (List Nat) :=
  if b.length < 20 ∨ b.take 12 ≠ TAP_SIG then none
  else if b.getD 12 0 ≠ 1 then none
  else some (tap_pulse_walk ((b.drop 20).take (tapDataLen b)))

/-! ## PulseClassifier (tap_to_basic.py lines 32-57) -/

/-- Cluster centers, `k = 3` throughout the source (`kmeans_1d(small, 3)`). -/
abbrev Centers := ℚ × ℚ × ℚ

/-- Distance used by the assignment step, `abs(v - centers[i])`. -/
def qdist (v c : ℚ) : ℚ := |v - c|

/-- `min(range(k), key=lambda i: abs(v - centers[i]))` for `k = 3`:
the nearest center's index, ties broken by the lowest index. -/
def assign3 (v : ℚ) (c : Centers) : Nat :=
  if qdist v c.1 ≤ qdist v c.2.1 ∧ qdist v c.1 ≤ qdist v c.2.2 then 0
  else if qdist v c.2.1 ≤ qdist v c.2.2 then 1
  else 2

/-- `(sum(b) / len(b)) if b else centers[i]`. -/
def bucketMean (b : List Nat) (old : ℚ) : ℚ :=
  if b.isEmpty then old else (b.map (fun (v : Nat) => (v : ℚ))).sum / (b.length : ℚ)

/-- One k-means round: buckets by nearest center, new centers as bucket
means, empty buckets keeping the previous center.  The bucket built by
`for v in values: buckets[j].append(v)` is the order-preserving filter. -/
def kstep (values : List Nat) (c : Centers) : Centers :=
  (bucketMean (values.filter (fun v => assign3 (v : ℚ) c == 0)) c.1,
   bucketMean (values.filter (fun v => assign3 (v : ℚ) c == 1)) c.2.1,
   bucketMean (values.filter (fun v => assign3 (v : ℚ) c == 2)) c.2.2)

/-- The iteration loop of `kmeans_1d`: up to `iters` rounds, stopping (and
keeping the previous centers, as the `break` fires before the assignment)
when every center moves less than `1e-6`. -/
def kmeans_iter (values : List Nat) : Nat → Centers → Centers
  | 0, c => c
  | fuel + 1, c =>
    let nc := kstep values c
    if |nc.1 - c.1| < 1 / 1000000 ∧ |nc.2.1 - c.2.1| < 1 / 1000000 ∧
        |nc.2.2 - c.2.2| < 1 / 1000000 then c
    else kmeans_iter values fuel nc

/-- `sorted` on the three final centers. -/
def sort3 (c : Centers) : Centers :=
  if c.1 ≤ c.2.1 then
    if c.2.1 ≤ c.2.2 then c
    else if c.1 ≤ c.2.2 then (c.1, c.2.2, c.2.1)
    else (c.2.2, c.1, c.2.1)
  else
    if c.1 ≤ c.2.2 then (c.2.1, c.1, c.2.2)
    else if c.2.1 ≤ c.2.2 then (c.2.1, c.2.2, c.1)
    else (c.2.2, c.2.1, c.1)

/-- `kmeans_1d(values, 3, 40)`: deterministic fractile seeding from the
sorted values (`vs[int((i + 1) * len(vs) / (k + 1))]`), 40 rounds, sorted
ascending result. -/
def kmeans_1d (values : List Nat) : Centers :=
  let vs := List.insertionSort (· ≤ ·) values
  let n := values.length
  let s0 := vs.getD (1 * n / 4) 0
  let s1 := vs.getD (2 * n / 4) 0
  let s2 := vs.getD (3 * n / 4) 0
  sort3 (kmeans_iter values 40 ((s0 : ℚ), (s1 : ℚ), (s2 : ℚ)))

/-- The inner `cat` of `classify_short_medium_long`: out-of-range pulses are
`None`, in-range pulses get the nearest center's index. -/
def catOf (centers : Centers) (p : Nat) : Option Nat :=
  if p < 10 ∨ 250 < p then none else some (assign3 (p : ℚ) centers)

/-- The center with a given index, matching `centers[i]` for `i` in 0..2. -/
def centerIdx (c : Centers) : Nat → ℚ :=
  fun i => if i = 0 then c.1 else if i = 1 then c.2.1 else c.2.2

/-- `classify_short_medium_long`: `none` models the raised `ValueError`
when no pulse lies in `[10, 250]`. -/
def classify_short_medium_long (pulses : List Nat) :
    Option (List (Option Nat) × Centers) :=
  let small := pulses.filter (fun p => decide (10 ≤ p ∧ p ≤ 250))
  if small.isEmpty then none
  else
    let centers := kmeans_1d small
    some (pulses.map (catOf centers), centers)

/-! ## BitDecoder (tap_to_basic.py lines 62-89) -/

/-- The inner `for _ in range(8)` loop of the byte decoder: read `n` category
pairs, `(Medium, Short)` giving bit 1 and `(Short, Medium)` giving bit 0; any
`Unknown` or other pair fails the candidate. -/
def readBitPairs : Nat → List (Option Nat) → Option (List Nat × List (Option Nat))
  | 0, l => some ([], l)
  | n + 1, some a :: some b :: l =>
    if a = 1 ∧ b = 0 then
      match readBitPairs n l with
      | some (bits, rest) => some (1 :: bits, rest)
      | none => none
    else if a = 0 ∧ b = 1 then
      match readBitPairs n l with
      | some (bits, rest) => some (0 :: bits, rest)
      | none => none
    else none
  | _ + 1, _ => none

/-- LSB-first bit assembly, `val |= bit << k`. -/
def bitsLSB : List Nat → Nat
  | [] => 0
  | b :: t => b + 2 * bitsLSB t

/-- The scanning `while i < n - 60` loop of `decode_bytes_from_pulse_categories`
on the suffix at the loop index: the loop body runs only while more than 60
category symbols remain; a Long followed by Short/Medium opens a byte
candidate; on success the scan resumes after the 18 consumed symbols, on
failure it advances by one symbol. -/
def decode_go : Nat → List (Option Nat) → List Nat
  | 0, _ => []
  | fuel + 1, l =>
    if l.length ≤ 60 then []
    else
      match l with
      | c0 :: c :: rest =>
        if c0 = some 2 ∧ (c = some 0 ∨ c = some 1) then
          match readBitPairs 8 rest with
          | some (bits, rest2) => bitsLSB bits :: decode_go fuel rest2
          | none => decode_go fuel (c :: rest)
        else decode_go fuel (c :: rest)
      | _ :: t => decode_go fuel t
      | [] => []

/-- `decode_bytes_from_pulse_categories` (tap_to_basic.py); the fuel equals
the input length, which each loop iteration strictly decreases. -/
def decode_bytes_from_pulse_categories (cats : List (Option Nat)) : List Nat :=
  decode_go cats.length cats

/-- Spec-side encoder, built from the claim's wording: bit 1 is the pair
(Medium, Short), bit 0 the pair (Short, Medium). -/
def encodeBit (bit : Nat) : List (Option Nat) :=
  if bit = 1 then [some 1, some 0] else [some 0, some 1]

/-- Spec-side encoder: a bit list becomes the concatenation of its pairs. -/
def encodePairs (bits : List Nat) : List (Option Nat) := (bits.map encodeBit).flatten

/-- The 8 bits of a byte, LSB first. -/
def bitsOf (b : Nat) : List Nat := (List.range 8).map (fun k => b / 2 ^ k % 2)

/-- Spec-side encoder: the sync marker pair (Long then Short) followed by the
8 bit pairs LSB-first. -/
def encodeByte (b : Nat) : List (Option Nat) := some 2 :: some 0 :: encodePairs (bitsOf b)

/-- Spec-side encoder for a byte sequence. -/
def encodeBytes (bs : List Nat) : List (Option Nat) := (bs.map encodeByte).flatten

/-! ## BlockParser (tap_to_basic.py lines 93-128) -/

/-- First-copy countdown preamble `0x89..0x81`. -/
def COUNTDOWN_A : List Nat := [0x89, 0x88, 0x87, 0x86, 0x85, 0x84, 0x83, 0x82, 0x81]

/-- Duplicate-copy countdown preamble `0x09..0x01`. -/
def COUNTDOWN_B : List Nat := [0x09, 0x08, 0x07, 0x06, 0x05, 0x04, 0x03, 0x02, 0x01]

/-- `xor_checksum`: XOR of all payload bytes, masked with `& 0xFF`. -/
def xor_checksum (payload : List Nat) : Nat :=
  (payload.foldl (fun x b => x ^^^ b) 0) &&& 255

/-- Python slice `l[i : i + n]`. -/
def slice (l : List Nat) (i n : Nat) : List Nat := (l.drop i).take n

/-- The scanning `while i < L - (9 + 192 + 1)` loop of `find_blocks` on the
loop index `i`; a matched countdown consumes preamble, 192-byte payload and
checksum byte and resumes after them, anything else advances by one byte. -/
def find_blocks_loop (decoded : List Nat) : Nat → Nat → List (Nat × List Nat × Nat × Bool)
  | 0, _ => []
  | fuel + 1, i =>
    if i + 202 < decoded.length then
      if slice decoded i 9 = COUNTDOWN_A then
        (i + 9, slice decoded (i + 9) 192, decoded.getD (i + 201) 0, false) ::
          find_blocks_loop decoded fuel (i + 202)
      else if slice decoded i 9 = COUNTDOWN_B then
        (i + 9, slice decoded (i + 9) 192, decoded.getD (i + 201) 0, true) ::
          find_blocks_loop decoded fuel (i + 202)
      else find_blocks_loop decoded fuel (i + 1)
    else []

/-- `find_blocks`: list of `(offset_after_countdown, payload192, checksum_byte,
is_copyB)`.  The fuel equals the stream length, an upper bound on the number
of loop iterations since `i` strictly increases below `L`. -/
def find_blocks (decoded : List Nat) : List (Nat × List Nat × Nat × Bool) :=
  find_blocks_loop decoded decoded.length 0

/-! ## ProgramLocator (tap_find_basic_prg.py lines 98-200) -/

/-- `u16le`: `b[off] | (b[off+1] << 8)`. -/
def u16le (b : List Nat) (off : Nat) : Nat := b.getD off 0 ||| (b.getD (off + 1) 0 <<< 8)

/-- `find_eol`: first 0x00 at index in `[start, min(len(buf), start + limit))`,
`none` for Python's `-1`. -/
def find_eol (buf : List Nat) (start limit : Nat) : Option Nat :=
  (List.range' start (min buf.length (start + limit) - start)).find?
    (fun i => buf.getD i 0 == 0)

/-- The closeness bonus `max(0, 40 - (abs(load - 0x1001) // 16))`. -/
def closeness (load : Nat) : Int :=
  max 0 (40 - ((((load : Int) - 0x1001).natAbs / 16 : Nat) : Int))

/-- The `for _ in range(5000)` line-walking loop of `score_basic_candidate`,
returning `(end_off, line_count, total_penalty)` on the `nextptr == 0` success
exit and `none` on every `break` (which falls through to `return None`). -/
def walk_lines (buf : List Nat) (off load : Nat) :
    Nat → Nat → Nat → Nat → Int → Nat → Option (Nat × Nat × Nat)
  | 0, _, _, _, _, _ => none
  | fuel + 1, p, lines, pen, lastLnum, lastNext =>
    if buf.length ≤ p + 4 then none
    else
      let nextptr := u16le buf p
      let lnum := u16le buf (p + 2)
      if nextptr = 0 then
        if 3 ≤ lines then some (p + 4, lines, pen) else none
      else if 63999 < lnum then none
      else
        let pen1 := if 0 < lines ∧ (lnum : Int) < lastLnum then pen + 10 else pen
        match find_eol buf (p + 4) 512 with
        | none => none
        | some eol =>
          let expected : Int := (off : Int) + 2 + ((nextptr : Int) - (load : Int))
          let mismatch := (expected - ((eol : Int) + 1)).natAbs
          let pen2 := if 64 < mismatch then pen1 + 25
            else if 0 < mismatch then pen1 + mismatch / 4 else pen1
          let pen3 := if nextptr ≤ lastNext then pen2 + 15 else pen2
          if 400 < pen3 then none
          else walk_lines buf off load fuel (eol + 1) (lines + 1) pen3 (lnum : Int) nextptr

/-- `score_basic_candidate`: length guard, load-address window `[0x0400, 0x4000]`,
then the line walk; on success the score is
`lines * 50 + closeness - total_penalty`. -/
def score_basic_candidate (buf : List Nat) (off : Nat) : Option (Int × Nat × Nat × Nat) :=
  if buf.length ≤ off + 10 then none
  else
    let load := u16le buf off
    if 0x0400 ≤ load ∧ load ≤ 0x4000 then
      match walk_lines buf off load 5000 (off + 2) 0 0 (-1) load with
      | some (endOff, lines, pen) =>
        some ((lines : Int) * 50 + closeness load - (pen : Int), load, endOff, lines)
      | none => none
    else none

/-- The best-so-far update of `find_best_basic`:
`if best is None or score > best[0]`. -/
def bestUpdate (buf : List Nat) (best : Option (Int × Nat × Nat × Nat × Nat)) (off : Nat) :
    Option (Int × Nat × Nat × Nat × Nat) :=
  match score_basic_candidate buf off with
  | none => best
  | some (score, load, endOff, lines) =>
    match best with
    | none => some (score, off, load, endOff, lines)
    | some b => if b.1 < score then some (score, off, load, endOff, lines) else best

/-- `find_best_basic`: scan offsets `range(0, max(0, len(buf) - 4096))`;
`none` models the raised `RuntimeError` when no candidate is found. -/
def find_best_basic (buf : List Nat) : Option (Nat × Nat × Nat × Nat) :=
  match (List.range (buf.length - 4096)).foldl (bestUpdate buf) none with
  | none => none
  | some (_, off, load, endOff, lines) => some (off, load, endOff, lines)

/-! ## Detokenizer (tap_to_basic.py lines 145-211) -/

/-- The `TOK` dictionary of tap_to_basic.py (BASIC V2 tokens 0x80..0xCA). -/
def tokTable : Nat → Option String
  | 0x80 => some "END"
  | 0x81 => some "FOR"
  | 0x82 => some "NEXT"
  | 0x83 => some "DATA"
  | 0x84 => some "INPUT#"
  | 0x85 => some "INPUT"
  | 0x86 => some "DIM"
  | 0x87 => some "READ"
  | 0x88 => some "LET"
  | 0x89 => some "GOTO"
  | 0x8A => some "RUN"
  | 0x8B => some "IF"
  | 0x8C => some "RESTORE"
  | 0x8D => some "GOSUB"
  | 0x8E => some "RETURN"
  | 0x8F => some "REM"
  | 0x90 => some "STOP"
  | 0x91 => some "ON"
  | 0x92 => some "WAIT"
  | 0x93 => some "LOAD"
  | 0x94 => some "SAVE"
  | 0x95 => some "VERIFY"
  | 0x96 => some "DEF"
  | 0x97 => some "POKE"
  | 0x98 => some "PRINT#"
  | 0x99 => some "PRINT"
  | 0x9A => some "CONT"
  | 0x9B => some "LIST"
  | 0x9C => some "CLR"
  | 0x9D => some "CMD"
  | 0x9E => some "SYS"
  | 0x9F => some "OPEN"
  | 0xA0 => some "CLOSE"
  | 0xA1 => some "GET"
  | 0xA2 => some "NEW"
  | 0xA3 => some "TAB("
  | 0xA4 => some "TO"
  | 0xA5 => some "FN"
  | 0xA6 => some "SPC("
  | 0xA7 => some "THEN"
  | 0xA8 => some "NOT"
  | 0xA9 => some "STEP"
  | 0xAA => some "+"
  | 0xAB => some "-"
  | 0xAC => some "*"
  | 0xAD => some "/"
  | 0xAE => some "^"
  | 0xAF => some "AND"
  | 0xB0 => some "OR"
  | 0xB1 => some ">"
  | 0xB2 => some "="
  | 0xB3 => some "<"
  | 0xB4 => some "SGN"
  | 0xB5 => some "INT"
  | 0xB6 => some "ABS"
  | 0xB7 => some "USR"
  | 0xB8 => some "FRE"
  | 0xB9 => some "POS"
  | 0xBA => some "SQR"
  | 0xBB => some "RND"
  | 0xBC => some "LOG"
  | 0xBD => some "EXP"
  | 0xBE => some "COS"
  | 0xBF => some "SIN"
  | 0xC0 => some "TAN"
  | 0xC1 => some "ATN"
  | 0xC2 => some "PEEK"
  | 0xC3 => some "LEN"
  | 0xC4 => some "STR$"
  | 0xC5 => some "VAL"
  | 0xC6 => some "ASC"
  | 0xC7 => some "CHR$"
  | 0xC8 => some "LEFT$"
  | 0xC9 => some "RIGHT$"
  | 0xCA => some "MID$"
  | _ => none

/-- `petscii_best_ascii_byte`: shifted space to a space, printable ASCII
verbatim, anything else a dot. -/
def petscii_best_ascii_byte (x : Nat) : Char :=
  if x = 0xA0 then ' '
  else if 32 ≤ x ∧ x ≤ 126 then Char.ofNat x
  else '.'

/-- One uppercase hex digit. -/
def hexDigit (n : Nat) : Char := if n < 10 then Char.ofNat (48 + n) else Char.ofNat (55 + n)

/-- The fallback rendering of an unknown high byte, Python `"{%02X}" % b`
(an opening brace, two uppercase hex digits, a closing brace). -/
def hexEsc (b : Nat) : String :=
  String.mk [Char.ofNat 123, hexDigit (b / 16), hexDigit (b % 16), Char.ofNat 125]

/-- The per-byte `while` loop of `detokenise_line` as a list of emitted
chunks: stop at 0x00, a quote is emitted literally and toggles the state, a
byte inside quotes goes through the PETSCII map, a high byte in code position
is the token (or the hex placeholder), anything else goes through the PETSCII
map. -/
def detok_go : List Nat → Bool → List String
  | [], _ => []
  | b :: rest, inq =>
    if b = 0 then []
    else if b = 0x22 then "\"" :: detok_go rest (!inq)
    else if inq then String.mk [petscii_best_ascii_byte b] :: detok_go rest inq
    else if 0x80 ≤ b then
      (match tokTable b with
        | some s => s
        | none => hexEsc b) :: detok_go rest inq
    else String.mk [petscii_best_ascii_byte b] :: detok_go rest inq

/-- Python whitespace test used by `str.split()`. -/
def pyIsSpace (c : Char) : Bool :=
  c = ' ' || c = Char.ofNat 9 || c = Char.ofNat 10 || c = Char.ofNat 13 ||
    c = Char.ofNat 11 || c = Char.ofNat 12

/-- Python `" ".join(s.split())`: the non-empty maximal chunks between
whitespace, joined by single spaces. -/
def pyCollapseWs (s : String) : String :=
  String.intercalate " "
    (((s.toList.splitOnP pyIsSpace).filter (fun w => !w.isEmpty)).map (fun w => String.mk w))

/-- `detokenise_line`: join the chunks, then the whitespace cleanup. -/
def detokenise_line (body : List Nat) : String :=
  pyCollapseWs (String.join (detok_go body false))

/-- The listing line `f"{lnum} {detokenise_line(body)}"` built by
`prg_to_listing` (tap_to_basic.py line 206). -/
def listing_line (lnum : Nat) (body : List Nat) : String :=
  toString lnum ++ " " ++ detokenise_line body

/-- Quote-state after a chunk of bytes: each 0x22 toggles. -/
def quoteFlip (l : List Nat) (q : Bool) : Bool :=
  if l.count 0x22 % 2 = 1 then !q else q

/-! ## Concrete test buffers used by witnesses -/

/-- An 88-byte decoded buffer holding a penalty-free 5-line BASIC candidate at
offset 0 (load address 0x1001, lines 10..50, consistent next-pointers) and a
penalty-free 10-line candidate at offset 31 (same load address, lines 10..100). -/
def buf88 : List Nat :=
  [0x01, 0x10, 6, 16, 10, 0, 0, 11, 16, 20, 0, 0, 16, 16, 30, 0, 0,
   21, 16, 40, 0, 0, 26, 16, 50, 0, 0, 0, 0, 0, 0,
   0x01, 0x10, 6, 16, 10, 0, 0, 11, 16, 20, 0, 0, 16, 16, 30, 0, 0,
   21, 16, 40, 0, 0, 26, 16, 50, 0, 0, 31, 16, 60, 0, 0, 36, 16, 70, 0, 0,
   41, 16, 80, 0, 0, 46, 16, 90, 0, 0, 51, 16, 100, 0, 0, 0, 0, 0, 0, 0]

/-! ## Helper lemmas -/

/-- Three bytes assembled with `a | (b << 8) | (c << 16)` equal the 24-bit
little-endian value. -/
theorem lor_byte3_eq (a b c : Nat) (ha : a < 256) (hb : b < 256) :
    a ||| (b <<< 8) ||| (c <<< 16) = a + 256 * b + 65536 * c := by
  have h1 : a ||| (b <<< 8) = 2 ^ 8 * b + a := by
    rw [Nat.shiftLeft_eq, Nat.lor_comm, Nat.mul_comm,
      ← Nat.mul_add_lt_is_or (lt_of_lt_of_le ha (by norm_num) : a < 2 ^ 8) b]
  have h2 : 2 ^ 8 * b + a < 2 ^ 16 := by
    have : (2 : Nat) ^ 8 = 256 := by norm_num
    rw [this]
    have : (2 : Nat) ^ 16 = 65536 := by norm_num
    rw [this]
    omega
  calc a ||| (b <<< 8) ||| (c <<< 16)
      = (2 ^ 8 * b + a) ||| (c * 2 ^ 16) := by rw [h1, Nat.shiftLeft_eq]
    _ = (c * 2 ^ 16) ||| (2 ^ 8 * b + a) := Nat.lor_comm _ _
    _ = (2 ^ 16 * c) ||| (2 ^ 8 * b + a) := by rw [Nat.mul_comm c (2 ^ 16)]
    _ = 2 ^ 16 * c + (2 ^ 8 * b + a) := (Nat.mul_add_lt_is_or h2 c).symm
    _ = a + 256 * b + 65536 * c := by
        have h8 : (2 : Nat) ^ 8 = 256 := by norm_num
        have h16 : (2 : Nat) ^ 16 = 65536 := by norm_num
        rw [h8, h16]
        omega

/-- The closeness bonus is non-negative. -/
theorem closeness_nonneg (load : Nat) : 0 ≤ closeness load := le_max_left _ _

/-- The closeness bonus is at most 40. -/
theorem closeness_le_40 (load : Nat) : closeness load ≤ 40 := by
  refine max_le (by norm_num) ?_
  have h : (0 : Int) ≤ ((((load : Int) - 0x1001).natAbs / 16 : Nat) : Int) :=
    Int.natCast_nonneg _
  omega

/-- A best-so-far fold whose every scanned offset scores `none` keeps its
accumulator. -/
theorem foldl_bestUpdate_none (buf : List Nat) :
    ∀ (l : List Nat) (acc : Option (Int × Nat × Nat × Nat × Nat)),
      (∀ off ∈ l, score_basic_candidate buf off = none) →
      l.foldl (bestUpdate buf) acc = acc := by
  intro l
  induction l with
  | nil => intro acc _; rfl
  | cons off l ih =>
    intro acc h
    have hoff : score_basic_candidate buf off = none := h off (by simp)
    have hstep : bestUpdate buf acc off = acc := by
      unfold bestUpdate
      rw [hoff]
    rw [List.foldl_cons, hstep]
    exact ih acc (fun o ho => h o (by simp [ho]))

/-- The offset component of a successful best-so-far fold satisfies any
property holding of the accumulator's offset and of every scanned offset. -/
theorem foldl_bestUpdate_offset (buf : List Nat) (C : Nat → Prop) :
    ∀ (l : List Nat) (acc : Option (Int × Nat × Nat × Nat × Nat)),
      (∀ r, acc = some r → C r.2.1) → (∀ off ∈ l, C off) →
      ∀ r, l.foldl (bestUpdate buf) acc = some r → C r.2.1 := by
  intro l
  induction l with
  | nil => intro acc hacc _ r hr; exact hacc r hr
  | cons off l ih =>
    intro acc hacc hl r hr
    rw [List.foldl_cons] at hr
    refine ih (bestUpdate buf acc off) ?_ (fun o ho => hl o (List.mem_cons_of_mem _ ho)) r hr
    intro r' hr'
    unfold bestUpdate at hr'
    cases hs : score_basic_candidate buf off with
    | none =>
      rw [hs] at hr'
      exact hacc r' hr'
    | some v =>
      obtain ⟨s, load, endOff, lines⟩ := v
      rw [hs] at hr'
      dsimp only at hr'
      cases hb : acc with
      | none =>
        rw [hb] at hr'
        dsimp only at hr'
        cases hr'
        exact hl off (by simp)
      | some b =>
        rw [hb] at hr'
        dsimp only at hr'
        split_ifs at hr' with hlt
        · cases hr'
          exact hl off (by simp)
        · exact hacc r' (hb.trans hr')

/-- `getD` on an append, right part. -/
theorem getD_append_right (l1 l2 : List Nat) (n : Nat) (h : l1.length ≤ n) :
    (l1 ++ l2).getD n 0 = l2.getD (n - l1.length) 0 := by
  rw [List.getD_eq_getElem?_getD, List.getD_eq_getElem?_getD, List.getElem?_append_right h]

/-- One unfolding of the block-scan loop. -/
theorem find_blocks_loop_succ (decoded : List Nat) (fuel i : Nat) :
    find_blocks_loop decoded (fuel + 1) i =
      if i + 202 < decoded.length then
        if slice decoded i 9 = COUNTDOWN_A then
          (i + 9, slice decoded (i + 9) 192, decoded.getD (i + 201) 0, false) ::
            find_blocks_loop decoded fuel (i + 202)
        else if slice decoded i 9 = COUNTDOWN_B then
          (i + 9, slice decoded (i + 9) 192, decoded.getD (i + 201) 0, true) ::
            find_blocks_loop decoded fuel (i + 202)
        else find_blocks_loop decoded fuel (i + 1)
      else [] := rfl

/-- Folding xor from an arbitrary start equals the start xored with the fold
from zero. -/
theorem foldl_xor_shift (l : List Nat) :
    ∀ a : Nat, l.foldl (fun x b => x ^^^ b) a = a ^^^ l.foldl (fun x b => x ^^^ b) 0 := by
  induction l with
  | nil => intro a; simp
  | cons b t ih =>
    intro a
    rw [List.foldl_cons, List.foldl_cons, ih (a ^^^ b), ih (0 ^^^ b)]
    simp [Nat.xor_assoc]

/-- The xor fold over a list split around one element. -/
theorem foldl_xor_append (l1 l2 : List Nat) (x : Nat) :
    (l1 ++ x :: l2).foldl (fun a b => a ^^^ b) 0 =
      (l1.foldl (fun a b => a ^^^ b) 0) ^^^ x ^^^ (l2.foldl (fun a b => a ^^^ b) 0) := by
  rw [List.foldl_append, List.foldl_cons, foldl_xor_shift l2, foldl_xor_shift l2 0]

/-- Four-way xor shuffle used to isolate a flipped bit. -/
theorem xor_shuffle (t g d m : Nat) : t ^^^ (g ^^^ m) ^^^ d = (t ^^^ g ^^^ d) ^^^ m := by
  apply Nat.eq_of_testBit_eq
  intro i
  simp only [Nat.testBit_xor]
  cases t.testBit i <;> cases g.testBit i <;> cases m.testBit i <;> cases d.testBit i <;> rfl

/-- Xoring in a single low bit changes a byte-masked value. -/
theorem and255_xor_ne (v k : Nat) (hk : k < 8) : (v ^^^ 2 ^ k) &&& 255 ≠ v &&& 255 := by
  intro h
  have hb := congrArg (fun t => t.testBit k) h
  have h255 : (255 : Nat) = 2 ^ 8 - 1 := by norm_num
  simp only [Nat.testBit_and, Nat.testBit_xor, Nat.testBit_two_pow_self, h255,
    Nat.testBit_two_pow_sub_one, hk, decide_True, Bool.and_true, Bool.xor_true] at hb
  exact (Bool.not_eq_self _).mp hb

/-- A list is its take, its element at `j`, and its drop past `j`. -/
theorem list_getD_decomp (l : List Nat) (j : Nat) (h : j < l.length) :
    l = l.take j ++ l.getD j 0 :: l.drop (j + 1) := by
  conv_lhs => rw [← List.take_append_drop j l]
  congr 1
  rw [List.drop_eq_getElem_cons h]
  congr 1
  rw [List.getD_eq_getElem?_getD, List.getElem?_eq_getElem h]
  rfl

/-- Flipping bit `k` of the byte at index `j` changes the xor checksum. -/
theorem xor_checksum_flip_ne (p : List Nat) (j k : Nat) (hj : j < p.length) (hk : k < 8) :
    xor_checksum (p.take j ++ (p.getD j 0 ^^^ 2 ^ k) :: p.drop (j + 1)) ≠ xor_checksum p := by
  unfold xor_checksum
  have h1 := foldl_xor_append (p.take j) (p.drop (j + 1)) (p.getD j 0 ^^^ 2 ^ k)
  have h2 := foldl_xor_append (p.take j) (p.drop (j + 1)) (p.getD j 0)
  rw [h1]
  conv_rhs => rw [list_getD_decomp p j hj]
  rw [h2, xor_shuffle]
  exact and255_xor_ne _ k hk

/-- A countdown-A preamble, a 192-byte payload, a checksum byte and one
trailing byte parse as exactly one copy-A block. -/
theorem find_blocks_single (pl : List Nat) (ck pad : Nat) (h : pl.length = 192) :
    find_blocks (COUNTDOWN_A ++ pl ++ [ck, pad]) = [(9, pl, ck, false)] := by
  have hA : COUNTDOWN_A.length = 9 := rfl
  have hlen : (COUNTDOWN_A ++ pl ++ [ck, pad]).length = 203 := by
    simp [COUNTDOWN_A, h]
  unfold find_blocks
  rw [hlen, show (203 : Nat) = 202 + 1 from rfl, find_blocks_loop_succ,
    if_pos (by rw [hlen]; omega)]
  have hsliceA : slice (COUNTDOWN_A ++ pl ++ [ck, pad]) 0 9 = COUNTDOWN_A := by
    unfold slice
    rw [List.drop_zero, List.append_assoc]
    exact List.take_left' hA
  rw [if_pos hsliceA]
  have hpl : slice (COUNTDOWN_A ++ pl ++ [ck, pad]) (0 + 9) 192 = pl := by
    unfold slice
    rw [List.append_assoc, List.drop_left' hA, List.take_left' h]
  have hck : (COUNTDOWN_A ++ pl ++ [ck, pad]).getD (0 + 201) 0 = ck := by
    rw [List.append_assoc, getD_append_right _ _ _ (by rw [hA]; omega),
      getD_append_right _ _ _ (by simp [h, hA])]
    simp [hA, h]
  rw [hpl, hck, show (202 : Nat) = 201 + 1 from rfl, find_blocks_loop_succ,
    if_neg (by rw [hlen]; omega)]

/-- Invariant of the block-scan loop: every produced block sits past the scan
position with a full 192-byte payload and a checksum byte inside the stream,
and successive blocks are at least 202 bytes apart. -/
theorem find_blocks_loop_inv (decoded : List Nat) :
    ∀ (fuel i : Nat),
      (∀ blk ∈ find_blocks_loop decoded fuel i,
        i + 9 ≤ blk.1 ∧ blk.2.1.length = 192 ∧ blk.1 + 193 ≤ decoded.length)
      ∧ List.Chain' (fun a b : Nat × List Nat × Nat × Bool => a.1 + 202 ≤ b.1)
          (find_blocks_loop decoded fuel i) := by
  intro fuel
  induction fuel with
  | zero => intro i; exact ⟨(by intro blk hb; cases hb), List.chain'_nil⟩
  | succ fuel ih =>
    intro i
    rw [find_blocks_loop_succ]
    split_ifs with hI hA hB
    ·
      refine ⟨?_, ?_⟩
      · intro blk hblk
        rcases List.mem_cons.mp hblk with hh | hh
        · subst hh
          refine ⟨le_refl _, ?_, by omega⟩
          unfold slice
          rw [List.length_take, List.length_drop]
          omega
        · have hr := (ih (i + 202)).1 blk hh
          exact ⟨by omega, hr.2.1, hr.2.2⟩
      · rw [List.chain'_cons']
        refine ⟨?_, (ih (i + 202)).2⟩
        intro y hy
        have hmem := List.mem_of_mem_head? hy
        have hr := (ih (i + 202)).1 y hmem
        have : i + 202 + 9 ≤ y.1 := hr.1
        omega
    · refine ⟨?_, ?_⟩
      · intro blk hblk
        rcases List.mem_cons.mp hblk with hh | hh
        · subst hh
          refine ⟨le_refl _, ?_, by omega⟩
          unfold slice
          rw [List.length_take, List.length_drop]
          omega
        · have hr := (ih (i + 202)).1 blk hh
          exact ⟨by omega, hr.2.1, hr.2.2⟩
      · rw [List.chain'_cons']
        refine ⟨?_, (ih (i + 202)).2⟩
        intro y hy
        have hmem := List.mem_of_mem_head? hy
        have hr := (ih (i + 202)).1 y hmem
        have h9 : i + 202 + 9 ≤ y.1 := hr.1
        omega
    · refine ⟨?_, (ih (i + 1)).2⟩
      intro blk hblk
      have hr := (ih (i + 1)).1 blk hblk
      exact ⟨by omega, hr.2.1, hr.2.2⟩
    · exact ⟨(by intro blk hb; cases hb), List.chain'_nil⟩

/-- One unfolding of the byte-decoder scan loop. -/
theorem decode_go_succ (fuel : Nat) (l : List (Option Nat)) :
    decode_go (fuel + 1) l =
      if l.length ≤ 60 then []
      else
        match l with
        | c0 :: c :: rest =>
          if c0 = some 2 ∧ (c = some 0 ∨ c = some 1) then
            match readBitPairs 8 rest with
            | some (bits, rest2) => bitsLSB bits :: decode_go fuel rest2
            | none => decode_go fuel (c :: rest)
          else decode_go fuel (c :: rest)
        | _ :: t => decode_go fuel t
        | [] => [] := rfl

/-- The scan emits nothing once at most 60 symbols remain. -/
theorem decode_go_short (fuel : Nat) (l : List (Option Nat)) (h : l.length ≤ 60) :
    decode_go fuel l = [] := by
  cases fuel with
  | zero => rfl
  | succ f => rw [decode_go_succ, if_pos h]

/-- Reading the encoded pairs of a 0/1 bit list recovers exactly those bits
and leaves the trailing symbols untouched. -/
theorem readBitPairs_encode :
    ∀ (bits : List Nat) (t : List (Option Nat)), (∀ x ∈ bits, x ≤ 1) →
      readBitPairs bits.length (encodePairs bits ++ t) = some (bits, t) := by
  intro bits
  induction bits with
  | nil => intro t _; simp [encodePairs, readBitPairs]
  | cons b bs ih =>
    intro t hx
    have hb : b ≤ 1 := hx b (by simp)
    have hbs : ∀ x ∈ bs, x ≤ 1 := fun x hxx => hx x (by simp [hxx])
    have hih := ih t hbs
    rcases Nat.le_one_iff_eq_zero_or_eq_one.mp hb with h | h
    · subst h
      have hsh : encodePairs (0 :: bs) ++ t = some 0 :: some 1 :: (encodePairs bs ++ t) := by
        simp [encodePairs, encodeBit]
      rw [hsh, List.length_cons, readBitPairs]
      simp [hih]
    · subst h
      have hsh : encodePairs (1 :: bs) ++ t = some 1 :: some 0 :: (encodePairs bs ++ t) := by
        simp [encodePairs, encodeBit]
      rw [hsh, List.length_cons, readBitPairs]
      simp [hih]

/-- Every entry of `bitsOf` is a bit. -/
theorem bitsOf_le_one (b : Nat) : ∀ x ∈ bitsOf b, x ≤ 1 := by
  intro x hx
  unfold bitsOf at hx
  rcases List.mem_map.mp hx with ⟨k, _, hk⟩
  omega

/-- Reassembling the 8 LSB-first bits of a byte below 256 gives it back. -/
theorem bitsLSB_bitsOf (b : Nat) (hb : b < 256) : bitsLSB (bitsOf b) = b := by
  have h8 : List.range 8 = [0, 1, 2, 3, 4, 5, 6, 7] := rfl
  unfold bitsOf
  rw [h8]
  simp only [List.map_cons, List.map_nil, bitsLSB]
  norm_num
  omega

/-- Length of the pair encoding of a bit list. -/
theorem encodePairs_length (bits : List Nat) : (encodePairs bits).length = 2 * bits.length := by
  induction bits with
  | nil => rfl
  | cons b bs ih =>
    unfold encodePairs at ih ⊢
    rw [List.map_cons, List.flatten_cons, List.length_append, ih]
    unfold encodeBit
    split_ifs <;> simp <;> omega

/-- Length of the category encoding of a byte sequence. -/
theorem encodeBytes_length (bs : List Nat) : (encodeBytes bs).length = 18 * bs.length := by
  induction bs with
  | nil => rfl
  | cons b t ih =>
    unfold encodeBytes at ih ⊢
    rw [List.map_cons, List.flatten_cons, List.length_append, ih]
    unfold encodeByte
    rw [List.length_cons, List.length_cons, encodePairs_length]
    have : (bitsOf b).length = 8 := rfl
    rw [this]
    rw [List.length_cons]
    omega

/-- Decoding the encoded stream of a byte sequence with 60 trailing Unknown
symbols, with any sufficient fuel, yields the byte sequence. -/
theorem decode_encode_aux :
    ∀ (bs : List Nat) (fuel : Nat), (∀ x ∈ bs, x < 256) →
      (encodeBytes bs ++ List.replicate 60 none).length ≤ fuel →
      decode_go fuel (encodeBytes bs ++ List.replicate 60 none) = bs := by
  intro bs
  induction bs with
  | nil =>
    intro fuel _ _
    refine decode_go_short fuel _ ?_
    simp [encodeBytes]
  | cons b bs ih =>
    intro fuel hx hf
    have hb : b < 256 := hx b (by simp)
    have hbs : ∀ x ∈ bs, x < 256 := fun x hxx => hx x (by simp [hxx])
    have hshape : encodeBytes (b :: bs) ++ List.replicate 60 none =
        some 2 :: some 0 ::
          (encodePairs (bitsOf b) ++ (encodeBytes bs ++ List.replicate 60 none)) := by
      simp [encodeBytes, encodeByte, List.append_assoc]
    have hlen : (encodeBytes (b :: bs) ++ List.replicate 60 none).length =
        18 + (encodeBytes bs ++ List.replicate 60 none).length := by
      rw [List.length_append, List.length_append, encodeBytes_length, encodeBytes_length]
      simp
      omega
    rcases fuel with _ | f
    · exfalso
      rw [hlen] at hf
      omega
    · rw [hshape, decode_go_succ]
      rw [if_neg (by
        rw [← hshape, hlen]
        rw [List.length_append, encodeBytes_length, List.length_replicate]
        omega)]
      dsimp only
      rw [if_pos ⟨rfl, Or.inl rfl⟩]
      have hr := readBitPairs_encode (bitsOf b) (encodeBytes bs ++ List.replicate 60 none)
        (bitsOf_le_one b)
      rw [show (bitsOf b).length = 8 from rfl] at hr
      rw [hr]
      dsimp only
      rw [bitsLSB_bitsOf b hb]
      rw [ih f hbs (by
        rw [hlen] at hf
        omega)]

/-- Quote state after a leading quote byte: parity flips. -/
theorem quoteFlip_cons_quote (t : List Nat) (q : Bool) :
    quoteFlip (0x22 :: t) q = quoteFlip t (!q) := by
  unfold quoteFlip
  rw [List.count_cons_self]
  rcases Nat.mod_two_eq_zero_or_one (t.count 0x22) with h | h <;>
    simp [Nat.add_mod, h]

/-- Quote state ignores non-quote bytes. -/
theorem quoteFlip_cons_other (b : Nat) (t : List Nat) (q : Bool) (h : b ≠ 0x22) :
    quoteFlip (b :: t) q = quoteFlip t q := by
  unfold quoteFlip
  rw [List.count_cons_of_ne (Ne.symm h)]

/-- The detokeniser render distributes over an append whose left part holds no
terminator, with the quote state threaded by parity. -/
theorem detok_go_append :
    ∀ (l r : List Nat) (q : Bool), (0 : Nat) ∉ l →
      detok_go (l ++ r) q = detok_go l q ++ detok_go r (quoteFlip l q) := by
  intro l
  induction l with
  | nil => intro r q _; simp [detok_go, quoteFlip]
  | cons b t ih =>
    intro r q h0
    have hb0 : b ≠ 0 := fun hb => h0 (by simp [hb])
    have ht0 : (0 : Nat) ∉ t := fun ht => h0 (by simp [ht])
    by_cases hq : b = 0x22
    · subst hq
      rw [List.cons_append]
      simp only [detok_go, if_neg hb0, if_pos rfl]
      rw [ih r (!q) ht0, quoteFlip_cons_quote]
      simp
    · rw [List.cons_append]
      simp only [detok_go, if_neg hb0, if_neg hq]
      rw [quoteFlip_cons_other b t q hq]
      cases q with
      | true =>
        simp only [if_pos rfl]
        rw [ih r true ht0]
        simp
      | false =>
        simp only [Bool.false_eq_true, if_false]
        rw [ih r false ht0]
        split_ifs <;> simp

/-- The assignment index is one of 0, 1, 2. -/
theorem assign3_lt3 (v : ℚ) (c : Centers) : assign3 v c < 3 := by
  unfold assign3
  split_ifs <;> omega

/-- The assigned center is at least as close as any of the three centers. -/
theorem assign3_nearest (v : ℚ) (c : Centers) :
    ∀ j, j < 3 → qdist v (centerIdx c (assign3 v c)) ≤ qdist v (centerIdx c j) := by
  intro j hj
  have e0 : centerIdx c 0 = c.1 := rfl
  have e1 : centerIdx c 1 = c.2.1 := rfl
  have e2 : centerIdx c 2 = c.2.2 := rfl
  unfold assign3
  split_ifs with ha hb
  · rw [e0]
    interval_cases j
    · rw [e0]
    · rw [e1]; exact ha.1
    · rw [e2]; exact ha.2
  · push_neg at ha
    rw [e1]
    interval_cases j
    · rw [e0]
      by_cases h01 : qdist v c.1 ≤ qdist v c.2.1
      · have h2 := ha h01
        linarith
      · push_neg at h01
        linarith
    · rw [e1]
    · rw [e2]; exact hb
  · push_neg at ha hb
    rw [e2]
    interval_cases j
    · rw [e0]
      by_cases h01 : qdist v c.1 ≤ qdist v c.2.1
      · have h2 := ha h01
        linarith
      · push_neg at h01
        linarith
    · rw [e1]; linarith
    · rw [e2]

/-- The sorted triple is ascending. -/
theorem sort3_sorted (c : Centers) :
    (sort3 c).1 ≤ (sort3 c).2.1 ∧ (sort3 c).2.1 ≤ (sort3 c).2.2 := by
  unfold sort3
  split_ifs <;> push_neg at * <;> constructor <;> linarith

/-- `kmeans_1d` results are ascending. -/
theorem kmeans_1d_sorted (values : List Nat) :
    (kmeans_1d values).1 ≤ (kmeans_1d values).2.1 ∧
      (kmeans_1d values).2.1 ≤ (kmeans_1d values).2.2 := by
  unfold kmeans_1d
  exact sort3_sorted _

/-- Bucket means only depend on the bucket as a multiset. -/
theorem bucketMean_perm (b b' : List Nat) (hp : b.Perm b') (old : ℚ) :
    bucketMean b old = bucketMean b' old := by
  unfold bucketMean
  have hl := hp.length_eq
  have hs : (b.map (fun (v : Nat) => (v : ℚ))).sum = (b'.map (fun (v : Nat) => (v : ℚ))).sum :=
    (hp.map (fun (v : Nat) => (v : ℚ))).sum_eq
  have he : b.isEmpty = b'.isEmpty := by
    rcases b with _ | _ <;> rcases b' with _ | _ <;> simp_all
  rw [hl, hs, he]

/-- One k-means round is invariant under permutation of the value list. -/
theorem kstep_perm (v v' : List Nat) (hp : v.Perm v') (c : Centers) :
    kstep v c = kstep v' c := by
  unfold kstep
  rw [bucketMean_perm _ _ (hp.filter (fun (x : Nat) => assign3 (x : ℚ) c == 0)),
    bucketMean_perm _ _ (hp.filter (fun (x : Nat) => assign3 (x : ℚ) c == 1)),
    bucketMean_perm _ _ (hp.filter (fun (x : Nat) => assign3 (x : ℚ) c == 2))]

/-- The k-means iteration is invariant under permutation of the value list. -/
theorem kmeans_iter_perm (v v' : List Nat) (hp : v.Perm v') :
    ∀ (fuel : Nat) (c : Centers), kmeans_iter v fuel c = kmeans_iter v' fuel c := by
  intro fuel
  induction fuel with
  | zero => intro c; rfl
  | succ f ih =>
    intro c
    rw [kmeans_iter, kmeans_iter, kstep_perm v v' hp c]
    split_ifs with h
    · rfl
    · exact ih _

/-- `kmeans_1d` is invariant under permutation of its input. -/
theorem kmeans_1d_perm (v v' : List Nat) (hp : v.Perm v') : kmeans_1d v = kmeans_1d v' := by
  unfold kmeans_1d
  have hvs : List.insertionSort (· ≤ ·) v = List.insertionSort (· ≤ ·) v' :=
    List.eq_of_perm_of_sorted
      ((List.perm_insertionSort _ v).trans (hp.trans (List.perm_insertionSort _ v').symm))
      (List.sorted_insertionSort _ v) (List.sorted_insertionSort _ v')
  rw [hvs, hp.length_eq]
  simp only [kmeans_iter_perm v v' hp]

/-- `classify_short_medium_long` on an input with a clusterable pulse. -/
theorem classify_eq_some (pulses : List Nat)
    (h : pulses.filter (fun p => decide (10 ≤ p ∧ p ≤ 250)) ≠ []) :
    classify_short_medium_long pulses =
      some (pulses.map
          (catOf (kmeans_1d (pulses.filter (fun p => decide (10 ≤ p ∧ p ≤ 250))))),
        kmeans_1d (pulses.filter (fun p => decide (10 ≤ p ∧ p ≤ 250)))) := by
  simp only [classify_short_medium_long]
  rw [if_neg (by simpa [List.isEmpty_iff] using h)]

/-! ## Claim theorems -/

/-- C6: PulseReader stream decoding.  For every capture whose signature and
version validate, `read_tap_v1_pulses` returns the walk of the declared-length
stream slice; the walk turns each non-zero byte into one pulse of that value,
each zero byte followed by at least 3 bytes into one pulse holding the 24-bit
little-endian value of those 3 bytes (consuming 4 bytes), and a zero byte with
fewer than 3 following bytes ends decoding with no further pulse; pulses come
out in stream order with no reordering or deduplication. -/
theorem claim_C6_pulsereader_stream :
    (∀ capture : List Nat, ¬(capture.length < 20 ∨ capture.take 12 ≠ TAP_SIG) →
      capture.getD 12 0 = 1 →
      read_tap_v1_pulses capture =
        some (tap_pulse_walk ((capture.drop 20).take (tapDataLen capture))))
    ∧ (∀ (x : Nat) (rest : List Nat), x ≠ 0 →
        tap_pulse_walk (x :: rest) = x :: tap_pulse_walk rest)
    ∧ (∀ (a b c : Nat) (rest : List Nat), a < 256 → b < 256 →
        tap_pulse_walk (0 :: a :: b :: c :: rest) =
          (a + 256 * b + 65536 * c) :: tap_pulse_walk rest)
    ∧ (∀ rest : List Nat, rest.length < 3 → tap_pulse_walk (0 :: rest) = []) := by
  refine ⟨?_, ?_, ?_, ?_⟩
  · intro capture h1 h2
    rw [read_tap_v1_pulses, if_neg h1, if_neg (fun hc => hc h2)]
  · intro x rest hx
    rcases rest with _ | ⟨a, _ | ⟨b, _ | ⟨c, t⟩⟩⟩ <;> simp [tap_pulse_walk, hx]
  · intro a b c rest ha hb
    rw [tap_pulse_walk, if_pos rfl]
    rw [lor_byte3_eq a b c ha hb]
  · intro rest h
    rcases rest with _ | ⟨a, _ | ⟨b, _ | ⟨c, t⟩⟩⟩
    · rfl
    · rfl
    · rfl
    · simp at h
      omega

/-- Witness for C6 at a concrete 22-byte capture: signature, version 1, data
length 2, stream bytes 5 and 7 decode to the pulses 5 and 7; and a concrete
extended-duration record. -/
theorem claim_C6_pulsereader_stream_witness :
    read_tap_v1_pulses (TAP_SIG ++ [1, 0, 0, 0, 2, 0, 0, 0, 5, 7]) = some [5, 7]
    ∧ tap_pulse_walk [0, 1, 1, 0] = [257] := by
  constructor
  · have h := claim_C6_pulsereader_stream.1 (TAP_SIG ++ [1, 0, 0, 0, 2, 0, 0, 0, 5, 7])
      (by decide) (by decide)
    rw [h]
    rfl
  · have h := claim_C6_pulsereader_stream.2.2.1 1 1 0 [] (by decide) (by decide)
    rw [h]
    decide

/-- C7: PulseReader format errors.  `read_tap_v1_pulses` fails (raises) if and
only if the capture is shorter than the 20-byte fixed header, its first 12
bytes differ from the magic signature, or its version byte differs from 1; any
capture passing these checks yields a pulse list without raising. -/
theorem claim_C7_pulsereader_format :
    ∀ capture : List Nat, read_tap_v1_pulses capture = none ↔
      (capture.length < 20 ∨ capture.take 12 ≠ TAP_SIG ∨ capture.getD 12 0 ≠ 1) := by
  intro capture
  rw [read_tap_v1_pulses]
  split_ifs with h1 h2
  · simp only [true_iff]
    tauto
  · simp only [true_iff]
    tauto
  · push_neg at h1 h2
    simp only [reduceCtorEq, false_iff]
    push_neg
    exact ⟨h1.1, h1.2, h2⟩

/-- C10: implicit scan-range restriction.  `find_best_basic` only evaluates
offsets below `len(buf) - 4096`, so a winning offset always satisfies
`off + 4096 < len(buf)`; and when every offset below that bound scores `none`,
the function reports no plausible candidate (`none`, the fatal error), even if
`score_basic_candidate` would accept a candidate inside the final 4096 bytes. -/
theorem claim_C10_scan_range :
    ∀ buf : List Nat,
      (∀ off load endOff lines, find_best_basic buf = some (off, load, endOff, lines) →
        off + 4096 < buf.length)
      ∧ ((∀ off, off + 4096 < buf.length → score_basic_candidate buf off = none) →
          find_best_basic buf = none) := by
  intro buf
  constructor
  · intro off load endOff lines h
    unfold find_best_basic at h
    cases hf : (List.range (buf.length - 4096)).foldl (bestUpdate buf) none with
    | none => rw [hf] at h; cases h
    | some r =>
      rw [hf] at h
      dsimp only at h
      have hC : r.2.1 + 4096 < buf.length := by
        refine foldl_bestUpdate_offset buf (fun o => o + 4096 < buf.length)
          (List.range (buf.length - 4096)) none (by intro r' hr'; cases hr') ?_ r hf
        intro o ho
        have := List.mem_range.mp ho
        omega
      obtain ⟨s, o, l, e, li⟩ := r
      cases h
      exact hC
  · intro h
    unfold find_best_basic
    rw [foldl_bestUpdate_none buf (List.range (buf.length - 4096)) none ?_]
    intro off hm
    have := List.mem_range.mp hm
    exact h off (by omega)

/-- Witness for C10: `buf88` is shorter than 4096 bytes, so although offset 0
holds a candidate that `score_basic_candidate` accepts, the scan evaluates no
offset at all and reports no plausible candidate. -/
theorem claim_C10_scan_range_witness :
    find_best_basic buf88 = none ∧ score_basic_candidate buf88 0 ≠ none := by
  constructor
  · refine (claim_C10_scan_range buf88).2 ?_
    intro off hoff
    have hlen : buf88.length = 88 := by decide
    rw [hlen] at hoff
    exact absurd hoff (by omega)
  · decide

/-- C1: ProgramLocator scoring.  In any decoded buffer holding two candidates
at distinct offsets whose line walks succeed with 5 and 10 well-formed lines
and zero accumulated penalty, for any pair of load addresses in the accepted
window [0x0400, 0x4000], `score_basic_candidate` gives the 10-line candidate a
strictly higher score than the 5-line candidate. -/
theorem claim_C1_locator_scoring :
    ∀ (buf : List Nat) (off1 off2 load1 load2 e1 e2 : Nat),
      off1 ≠ off2 →
      off1 + 10 < buf.length → off2 + 10 < buf.length →
      u16le buf off1 = load1 → u16le buf off2 = load2 →
      0x0400 ≤ load1 → load1 ≤ 0x4000 → 0x0400 ≤ load2 → load2 ≤ 0x4000 →
      walk_lines buf off1 load1 5000 (off1 + 2) 0 0 (-1) load1 = some (e1, 5, 0) →
      walk_lines buf off2 load2 5000 (off2 + 2) 0 0 (-1) load2 = some (e2, 10, 0) →
      ∃ s1 s2 : Int, score_basic_candidate buf off1 = some (s1, load1, e1, 5) ∧
        score_basic_candidate buf off2 = some (s2, load2, e2, 10) ∧ s1 < s2 := by
  intro buf off1 off2 load1 load2 e1 e2 hne hlen1 hlen2 hl1 hl2 ha1 hb1 ha2 hb2 hw1 hw2
  refine ⟨5 * 50 + closeness load1 - 0, 10 * 50 + closeness load2 - 0, ?_, ?_, ?_⟩
  · unfold score_basic_candidate
    rw [if_neg (by omega)]
    dsimp only
    rw [hl1, if_pos ⟨ha1, hb1⟩, hw1]
    norm_num
  · unfold score_basic_candidate
    rw [if_neg (by omega)]
    dsimp only
    rw [hl2, if_pos ⟨ha2, hb2⟩, hw2]
    norm_num
  · have h1 := closeness_le_40 load1
    have h2 := closeness_nonneg load2
    omega

/-- Witness for C1 on `buf88`: the 5-line candidate at offset 0 scores 290 and
the 10-line candidate at offset 31 scores 540. -/
theorem claim_C1_locator_scoring_witness :
    ∃ s1 s2 : Int, score_basic_candidate buf88 0 = some (s1, 0x1001, 31, 5) ∧
      score_basic_candidate buf88 31 = some (s2, 0x1001, 87, 10) ∧ s1 < s2 :=
  claim_C1_locator_scoring buf88 0 31 0x1001 0x1001 31 87
    (by decide) (by decide) (by decide) (by decide)
    (by decide) (by decide) (by decide) (by decide) (by decide)
    (by decide) (by decide)

/-- Counterexample to C3 as stated: a stream that is exactly the 9-byte
countdown, a 192-byte payload and its correct XOR checksum (202 bytes, nothing
after) yields no block at all, because the scan loop requires
`i < len - (9 + 192 + 1)` and so never runs on a 202-byte stream, instead of
the one copy-A block the claim asserts. -/
theorem claim_C3_counterexample :
    find_blocks (COUNTDOWN_A ++ List.replicate 192 0 ++
      [xor_checksum (List.replicate 192 0)]) = [] := by
  decide

/-- C3 (amended): with at least one byte after the checksum, a stream made of
the exact 9-byte primary countdown, a 192-byte payload and the XOR of the
payload yields exactly one block, tagged copy A, whose recorded checksum is
the XOR of its payload; the same stream with one payload bit flipped yields
the same single copy-A block but its recorded checksum no longer equals the
XOR of its payload. -/
theorem claim_C3_blockparser_synthetic :
    ∀ payload : List Nat, payload.length = 192 → ∀ pad : Nat,
      (find_blocks (COUNTDOWN_A ++ payload ++ [xor_checksum payload, pad]) =
        [(9, payload, xor_checksum payload, false)])
      ∧ (∀ j k : Nat, j < 192 → k < 8 →
          find_blocks (COUNTDOWN_A ++
              (payload.take j ++ (payload.getD j 0 ^^^ 2 ^ k) :: payload.drop (j + 1)) ++
              [xor_checksum payload, pad]) =
            [(9, payload.take j ++ (payload.getD j 0 ^^^ 2 ^ k) :: payload.drop (j + 1),
              xor_checksum payload, false)]
          ∧ xor_checksum
              (payload.take j ++ (payload.getD j 0 ^^^ 2 ^ k) :: payload.drop (j + 1)) ≠
            xor_checksum payload) := by
  intro payload h pad
  constructor
  · exact find_blocks_single payload _ pad h
  · intro j k hj hk
    have hlen2 :
        (payload.take j ++ (payload.getD j 0 ^^^ 2 ^ k) :: payload.drop (j + 1)).length =
          192 := by
      rw [List.length_append, List.length_take, List.length_cons, List.length_drop]
      omega
    exact ⟨find_blocks_single _ _ pad hlen2,
      xor_checksum_flip_ne payload j k (by omega) hk⟩

/-- Witness for C3 (amended) at the all-zero payload with `pad = 0`, bit 0 of
byte 0 flipped in the second half. -/
theorem claim_C3_blockparser_synthetic_witness :
    (find_blocks (COUNTDOWN_A ++ List.replicate 192 0 ++
        [xor_checksum (List.replicate 192 0), 0]) =
      [(9, List.replicate 192 0, xor_checksum (List.replicate 192 0), false)])
    ∧ xor_checksum ((List.replicate 192 0).take 0 ++
        (((List.replicate 192 0).getD 0 0) ^^^ 2 ^ 0) :: (List.replicate 192 0).drop 1) ≠
      xor_checksum (List.replicate 192 0) :=
  ⟨(claim_C3_blockparser_synthetic (List.replicate 192 0) (by decide) 0).1,
   ((claim_C3_blockparser_synthetic (List.replicate 192 0) (by decide) 0).2
     0 0 (by decide) (by decide)).2⟩

/-- C5: block invariant.  For every decoded byte stream, every block returned
by `find_blocks` carries a payload of exactly 192 bytes and fits (with its
checksum byte) inside the stream — so a countdown too close to the end of the
stream produces no block — and the blocks appear in strictly increasing
stream-offset order with non-overlapping consumed regions: successive
offsets-after-countdown differ by at least 202 bytes, the size of one consumed
countdown + payload + checksum region. -/
theorem claim_C5_block_invariant :
    ∀ decoded : List Nat,
      (∀ blk ∈ find_blocks decoded,
        blk.2.1.length = 192 ∧ blk.1 + 193 ≤ decoded.length)
      ∧ List.Pairwise (fun a b : Nat × List Nat × Nat × Bool => a.1 + 202 ≤ b.1)
          (find_blocks decoded) := by
  intro decoded
  have h := find_blocks_loop_inv decoded decoded.length 0
  refine ⟨fun blk hb => ⟨(h.1 blk hb).2.1, (h.1 blk hb).2.2⟩, ?_⟩
  haveI : IsTrans (Nat × List Nat × Nat × Bool)
      (fun a b => a.1 + 202 ≤ b.1) := ⟨fun a b c hab hbc => by omega⟩
  exact List.chain'_iff_pairwise.mp h.2

/-- Witness for C5 on a concrete 203-byte stream holding one all-zero block. -/
theorem claim_C5_block_invariant_witness :
    (9, List.replicate 192 0, 0, false).2.1.length = 192 ∧
      (9 : Nat) + 193 ≤ (COUNTDOWN_A ++ List.replicate 192 0 ++ [0, 0]).length :=
  (claim_C5_block_invariant (COUNTDOWN_A ++ List.replicate 192 0 ++ [0, 0])).1
    (9, List.replicate 192 0, 0, false) (by decide)

/-- Counterexample to C2 as stated: the category stream encoding the single
byte 65 (sync marker pair followed by its 8 bit pairs, 18 symbols in all) does
not round-trip: the scan loop only runs while more than 60 symbols remain, so
the decoder emits nothing at all. -/
theorem claim_C2_counterexample :
    decode_bytes_from_pulse_categories (encodeBytes [65]) ≠ [65] := by
  decide

/-- C2 (amended): the encoding of any byte sequence round-trips exactly
through `decode_bytes_from_pulse_categories` once 60 trailing Unknown
categories follow it — without that padding the `while i < n - 60` guard
leaves the final three encoded bytes undecoded. -/
theorem claim_C2_bitdecoder_roundtrip :
    ∀ bs : List Nat, (∀ x ∈ bs, x < 256) →
      decode_bytes_from_pulse_categories (encodeBytes bs ++ List.replicate 60 none) = bs := by
  intro bs hx
  exact decode_encode_aux bs _ hx (le_refl _)

/-- Witness for C2 (amended) at the byte sequence 65, 0, 255. -/
theorem claim_C2_bitdecoder_roundtrip_witness :
    decode_bytes_from_pulse_categories (encodeBytes [65, 0, 255] ++ List.replicate 60 none) =
      [65, 0, 255] :=
  claim_C2_bitdecoder_roundtrip [65, 0, 255] (by decide)

/-- C4: Detokenizer quote semantics.  First conjunct: in any line body, a
token byte (at least 0x80) sitting after an odd number of quote bytes (and no
terminator) — that is, between an opening quote and its matching close — is
rendered through the PETSCII-to-text mapping, never as its keyword text.
Second conjunct: the tokenized body of line 10, `PRINT"HELLO"` (token 0x99,
quote, the ASCII bytes of HELLO, quote, terminator 0x00) detokenises to the
exact text `10 PRINT"HELLO"`. -/
theorem claim_C4_detokenizer_quotes :
    (∀ (body : List Nat) (i : Nat) (h : i < body.length),
      (0 : Nat) ∉ body.take i → (body.take i).count 0x22 % 2 = 1 →
      0x80 ≤ body.get ⟨i, h⟩ →
      detok_go body false =
        detok_go (body.take i) false ++
          String.mk [petscii_best_ascii_byte (body.get ⟨i, h⟩)] ::
            detok_go (body.drop (i + 1)) true)
    ∧ listing_line 10 [0x99, 0x22, 72, 69, 76, 76, 79, 0x22, 0] = "10 PRINT\"HELLO\"" := by
  constructor
  · intro body i h h0 hodd hhi
    have hb0 : body.get ⟨i, h⟩ ≠ 0 := by omega
    have hbq : body.get ⟨i, h⟩ ≠ 0x22 := by omega
    have hdecomp : body = body.take i ++ body.get ⟨i, h⟩ :: body.drop (i + 1) := by
      conv_lhs => rw [← List.take_append_drop i body]
      rw [List.drop_eq_getElem_cons h, List.get_eq_getElem]
    conv_lhs => rw [hdecomp]
    rw [detok_go_append _ _ false h0]
    have hflip : quoteFlip (body.take i) false = true := by
      unfold quoteFlip
      rw [if_pos hodd]
      rfl
    rw [hflip]
    simp only [detok_go, if_neg hb0, if_neg hbq, if_pos rfl]
    simp
  · decide

/-- Witness for C4: in the body quote 0x99 quote terminator, the PRINT token
byte at index 1 sits inside quotes and renders as a PETSCII dot, not as the
keyword PRINT. -/
theorem claim_C4_detokenizer_quotes_witness :
    detok_go [0x22, 0x99, 0x22, 0] false =
      detok_go [(0x22 : Nat)] false ++
        String.mk [petscii_best_ascii_byte 0x99] :: detok_go [0x22, 0] true := by
  have h := claim_C4_detokenizer_quotes.1 [0x22, 0x99, 0x22, 0] 1 (by decide)
    (by decide) (by decide) (by decide)
  simpa using h

/-- C8: PulseClassifier failure and Unknown mapping.
`classify_short_medium_long` fails (raises) if and only if no input pulse lies
in [10, 250]; otherwise it returns one category per input pulse in order (the
map over the pulses), where every out-of-range pulse maps to Unknown (`none`)
regardless of its distance to the cluster centers, and every in-range pulse
maps to the index (below 3) of a nearest center among the three. -/
theorem claim_C8_classifier :
    ∀ pulses : List Nat,
      (classify_short_medium_long pulses = none ↔ ∀ p ∈ pulses, ¬(10 ≤ p ∧ p ≤ 250))
      ∧ (∀ cats centers, classify_short_medium_long pulses = some (cats, centers) →
          cats = pulses.map (catOf centers)
          ∧ (∀ p : Nat, p < 10 ∨ 250 < p → catOf centers p = none)
          ∧ (∀ p : Nat, 10 ≤ p → p ≤ 250 →
              catOf centers p = some (assign3 (p : ℚ) centers)
              ∧ assign3 (p : ℚ) centers < 3
              ∧ ∀ j, j < 3 →
                qdist (p : ℚ) (centerIdx centers (assign3 (p : ℚ) centers)) ≤
                  qdist (p : ℚ) (centerIdx centers j))) := by
  intro pulses
  constructor
  · by_cases h : pulses.filter (fun p => decide (10 ≤ p ∧ p ≤ 250)) = []
    · constructor
      · intro _ p hp hcond
        have hmem := List.filter_eq_nil_iff.mp h p hp
        simp at hmem
        omega
      · intro _
        simp only [classify_short_medium_long]
        rw [if_pos (by simpa [List.isEmpty_iff] using h)]
    · rw [classify_eq_some pulses h]
      constructor
      · intro hc
        cases hc
      · intro hall
        exfalso
        apply h
        rw [List.filter_eq_nil_iff]
        intro a ha
        simpa using hall a ha
  · intro cats centers hsome
    by_cases h : pulses.filter (fun p => decide (10 ≤ p ∧ p ≤ 250)) = []
    · exfalso
      simp only [classify_short_medium_long] at hsome
      rw [if_pos (by simpa [List.isEmpty_iff] using h)] at hsome
      cases hsome
    · rw [classify_eq_some pulses h] at hsome
      have h2 := Option.some.inj hsome
      have hfst := congrArg Prod.fst h2
      have hsnd := congrArg Prod.snd h2
      dsimp only at hfst hsnd
      subst hsnd
      subst hfst
      refine ⟨rfl, ?_, ?_⟩
      · intro p hp
        unfold catOf
        rw [if_pos hp]
      · intro p h10 h250
        refine ⟨?_, assign3_lt3 _ _, fun j hj => assign3_nearest _ _ j hj⟩
        unfold catOf
        rw [if_neg (by omega)]

/-- Witness for C8 at the pulses 30, 40, 50, 300: the classifier returns one
category per pulse, with the out-of-range 300 mapped to Unknown. -/
theorem claim_C8_classifier_witness :
    ([some 0, some 1, some 2, none] : List (Option Nat)) =
      [30, 40, 50, 300].map (catOf ((30 : ℚ), (40 : ℚ), (50 : ℚ))) := by
  have h30 : assign3 (30 : ℚ) ((30 : ℚ), (40 : ℚ), (50 : ℚ)) = 0 := by
    unfold assign3 qdist
    norm_num
  have h40 : assign3 (40 : ℚ) ((30 : ℚ), (40 : ℚ), (50 : ℚ)) = 1 := by
    unfold assign3 qdist
    norm_num
  have h50 : assign3 (50 : ℚ) ((30 : ℚ), (40 : ℚ), (50 : ℚ)) = 2 := by
    unfold assign3 qdist
    norm_num
  have hkstep : kstep [30, 40, 50] ((30 : ℚ), (40 : ℚ), (50 : ℚ)) =
      ((30 : ℚ), (40 : ℚ), (50 : ℚ)) := by
    unfold kstep
    rw [show List.filter (fun v => assign3 ((v : Nat) : ℚ)
        ((30 : ℚ), (40 : ℚ), (50 : ℚ)) == 0) [30, 40, 50] = [30] by
      simp [List.filter, h30, h40, h50]]
    rw [show List.filter (fun v => assign3 ((v : Nat) : ℚ)
        ((30 : ℚ), (40 : ℚ), (50 : ℚ)) == 1) [30, 40, 50] = [40] by
      simp [List.filter, h30, h40, h50]]
    rw [show List.filter (fun v => assign3 ((v : Nat) : ℚ)
        ((30 : ℚ), (40 : ℚ), (50 : ℚ)) == 2) [30, 40, 50] = [50] by
      simp [List.filter, h30, h40, h50]]
    unfold bucketMean
    norm_num
  have hkm : kmeans_1d [30, 40, 50] = ((30 : ℚ), (40 : ℚ), (50 : ℚ)) := by
    have hseed : kmeans_1d [30, 40, 50] =
        sort3 (kmeans_iter [30, 40, 50] 40
          (((30 : Nat) : ℚ), ((40 : Nat) : ℚ), ((50 : Nat) : ℚ))) := rfl
    rw [hseed]
    have hcast : ((((30 : Nat) : ℚ), ((40 : Nat) : ℚ), ((50 : Nat) : ℚ)) : Centers) =
        ((30 : ℚ), (40 : ℚ), (50 : ℚ)) := by norm_num
    rw [hcast, show (40 : Nat) = 39 + 1 from rfl, kmeans_iter, hkstep]
    rw [if_pos (by norm_num)]
    unfold sort3
    norm_num
  have hcl : classify_short_medium_long [30, 40, 50, 300] =
      some ([30, 40, 50, 300].map (catOf ((30 : ℚ), (40 : ℚ), (50 : ℚ))),
        ((30 : ℚ), (40 : ℚ), (50 : ℚ))) := by
    have h := classify_eq_some [30, 40, 50, 300] (by decide)
    rw [show List.filter (fun p => decide (10 ≤ p ∧ p ≤ 250)) [30, 40, 50, 300] =
      [30, 40, 50] from by decide] at h
    rw [hkm] at h
    exact h
  have hmap : [30, 40, 50, 300].map (catOf ((30 : ℚ), (40 : ℚ), (50 : ℚ))) =
      [some 0, some 1, some 2, none] := by
    simp [catOf, h30, h40, h50]
  exact (((claim_C8_classifier [30, 40, 50, 300]).2
    [some 0, some 1, some 2, none] ((30 : ℚ), (40 : ℚ), (50 : ℚ))
    (by rw [hcl, hmap]))).1

/-- C9: clustering order properties.  For every input list with at least one
value in [10, 250], classification succeeds, the three cluster centers are
sorted ascending, and permuting the input list (in particular presenting it
sorted) yields exactly the same three centers. -/
theorem claim_C9_clustering :
    ∀ pulses pulses' : List Nat, pulses.Perm pulses' →
      (∃ p ∈ pulses, 10 ≤ p ∧ p ≤ 250) →
      ∃ cats cats' centers,
        classify_short_medium_long pulses = some (cats, centers)
        ∧ classify_short_medium_long pulses' = some (cats', centers)
        ∧ centers.1 ≤ centers.2.1 ∧ centers.2.1 ≤ centers.2.2 := by
  intro pulses pulses' hp hex
  have hsp : (pulses.filter (fun p => decide (10 ≤ p ∧ p ≤ 250))).Perm
      (pulses'.filter (fun p => decide (10 ≤ p ∧ p ≤ 250))) :=
    hp.filter _
  have hne : pulses.filter (fun p => decide (10 ≤ p ∧ p ≤ 250)) ≠ [] := by
    obtain ⟨p, hmem, h1, h2⟩ := hex
    intro hnil
    have hq := List.filter_eq_nil_iff.mp hnil p hmem
    simp at hq
    omega
  have hne' : pulses'.filter (fun p => decide (10 ≤ p ∧ p ≤ 250)) ≠ [] := by
    intro hnil
    exact hne (List.Perm.eq_nil (hnil ▸ hsp))
  refine ⟨pulses.map
      (catOf (kmeans_1d (pulses.filter (fun p => decide (10 ≤ p ∧ p ≤ 250))))),
    pulses'.map
      (catOf (kmeans_1d (pulses'.filter (fun p => decide (10 ≤ p ∧ p ≤ 250))))),
    kmeans_1d (pulses.filter (fun p => decide (10 ≤ p ∧ p ≤ 250))),
    classify_eq_some pulses hne, ?_, ?_, ?_⟩
  · rw [classify_eq_some pulses' hne', kmeans_1d_perm _ _ hsp]
  · exact (kmeans_1d_sorted _).1
  · exact (kmeans_1d_sorted _).2

/-- Witness for C9 at the pulses 30, 40, 50, 300 against their reversal. -/
theorem claim_C9_clustering_witness :
    ∃ cats cats' centers,
      classify_short_medium_long [30, 40, 50, 300] = some (cats, centers)
      ∧ classify_short_medium_long [300, 50, 40, 30] = some (cats', centers)
      ∧ centers.1 ≤ centers.2.1 ∧ centers.2.1 ≤ centers.2.2 :=
  claim_C9_clustering [30, 40, 50, 300] [300, 50, 40, 30] (by decide) (by decide)

end Hyperdrive
